import Mathlib

/-!
Shallow embedding of the semester-dashboard core logic of `src/Graphs.py`:
the record store, the schema check on uploaded tables, the digit-extraction
sort with its all-or-nothing fallback, and the metrics block
(idxmax / idxmin / mean / iloc[-1]).  Grade values are modelled as exact
rationals.  The pandas sort is by the extracted integer key; its tie order is
implementation defined, so the embedding uses a deterministic merge sort by
the same key (all claims below involve only distinct keys).
-/

namespace Graphs

/-- One row of the data frame: columns `Semester`, `SGPA`, `CGPA`. -/
structure Record where
  semester : String
  sgpa : ℚ
  cgpa : ℚ
deriving DecidableEq, Repr

/-- The first run of digit characters in a string, as matched by the regex
`(\d+)` in `data["Semester"].str.extract(r"(\d+)")`. -/
def firstDigitRun (s : String) : List Char :=
  (s.data.dropWhile (fun c => !c.isDigit)).takeWhile (fun c => c.isDigit)

/-- Value of a run of digit characters read in base 10. -/
def digitRunToNat (cs : List Char) : Nat :=
  cs.foldl (fun a c => 10 * a + (c.toNat - 48)) 0

/-- The integer extracted from a semester label: `str.extract(r"(\d+)")`
followed by `astype(int)`.  `none` models the NaN that makes `astype(int)`
raise (no digits anywhere in the label). -/
def semIndex (s : String) : Option Nat :=
  match firstDigitRun s with
  | [] => none
  | cs => some (digitRunToNat cs)

/-- Sort key of a record, defined when `semIndex` succeeds on its label. -/
def semKey (r : Record) : Nat :=
  (semIndex r.semester).getD 0

/-- The `SemIndex` sort block (lines 91-98): extract an integer from every
label; if all succeed, sort ascending by it and reindex, otherwise the
`except` clause leaves the original order untouched (all-or-nothing). -/
def normalize (rs : List Record) : List Record :=
  if rs.all (fun r => (semIndex r.semester).isSome) then
    rs.mergeSort (fun a b => decide (semKey a ≤ semKey b))
  else
    rs

/-- The built-in sample dataset (`sample_dict`, lines 72-86). -/
def sampleRecords : List Record :=
  [ ⟨"Sem 1", 8.35, 8.35⟩
  , ⟨"Sem 2", 8.03, 8.19⟩
  , ⟨"Sem 3", 7.34, 7.91⟩
  , ⟨"Sem 4", 8.29, 8.01⟩
  , ⟨"Sem 5", 7.90, 7.99⟩
  , ⟨"Sem 6", 7.95, 7.98⟩
  , ⟨"Sem 7", 8.70, 8.10⟩
  , ⟨"Sem 8", 8.33, 8.13⟩ ]

/-- Pandas `Series.idxmax` on the image of `f`: position and record of the
maximal value, first occurrence on ties; `none` on an empty store (pandas
raises `ValueError` there). -/
def idxmaxBy (f : Record → ℚ) : List Record → Option (Nat × Record)
  | [] => none
  | r :: rs =>
    match idxmaxBy f rs with
    | none => some (0, r)
    | some (i, b) => if f b ≤ f r then some (0, r) else some (i + 1, b)

/-- Pandas `Series.idxmin` on the image of `f`: position and record of the
minimal value, first occurrence on ties. -/
def idxminBy (f : Record → ℚ) : List Record → Option (Nat × Record)
  | [] => none
  | r :: rs =>
    match idxminBy f rs with
    | none => some (0, r)
    | some (i, b) => if f r ≤ f b then some (0, r) else some (i + 1, b)

/-- `(max_sgpa_value, max_sgpa_sem)` from lines 217-219. -/
def highest_sgpa (rs : List Record) : Option (ℚ × String) :=
  (idxmaxBy Record.sgpa rs).map (fun p => (p.2.sgpa, p.2.semester))

/-- `(min_sgpa_value, min_sgpa_sem)` from lines 222-224. -/
def lowest_sgpa (rs : List Record) : Option (ℚ × String) :=
  (idxminBy Record.sgpa rs).map (fun p => (p.2.sgpa, p.2.semester))

/-- `avg_sgpa_value = data["SGPA"].mean()` (line 227): sum of all SGPA
values divided by the row count (no value is NaN, so nothing is skipped). -/
def average_sgpa (rs : List Record) : ℚ :=
  (rs.map Record.sgpa).sum / rs.length

/-- `(final_cgpa_value, final_cgpa_sem) = iloc[-1]` (lines 230-231): the
strict-last policy, the chronologically last record unconditionally. -/
def final_cgpa_strict (rs : List Record) : Option (ℚ × String) :=
  rs.getLast?.map (fun r => (r.cgpa, r.semester))

/-- Error taxonomy of the metrics block.  `emptyDataError` is the guard the
spec asks for; `valueError` models the ValueError pandas `idxmax` raises on
an empty series (attempt to get argmax of an empty sequence). -/
inductive MetricsError where
  | emptyDataError : MetricsError
  | valueError : MetricsError
deriving DecidableEq, Repr

/-- The four figures of the metrics expander. -/
structure Metrics where
  highestSgpa : ℚ × String
  lowestSgpa : ℚ × String
  averageSgpa : ℚ
  finalCgpa : ℚ × String
deriving DecidableEq, Repr

/-- The metrics expander block (lines 213-231), in source order: `idxmax`
runs first, so on a zero-row store the computation stops with the
ValueError it raises; there is no `EmptyDataError` guard in the code. -/
def computeMetrics (rs : List Record) : Except MetricsError Metrics :=
  match highest_sgpa rs with
  | none => .error .valueError
  | some hi =>
    match lowest_sgpa rs with
    | none => .error .valueError
    | some lo =>
      match final_cgpa_strict rs with
      | none => .error .valueError
      | some fin => .ok ⟨hi, lo, average_sgpa rs, fin⟩

/-- Modelled from the spec: the last-nonzero final-CGPA policy of the
manual-entry variant is not in `src/Graphs.py` (only the strict-last variant
is); per the spec it "filters to records with `cgpa > 0`, and takes the last
such record in store order; if no record has a positive CGPA, reports a
sentinel (`0.0`, label `\x22N/A\x22`)". -/
def final_cgpa_lastNonzero (rs : List Record) : ℚ × String :=
  match (rs.filter (fun r => decide (0 < r.cgpa))).getLast? with
  | some r => (r.cgpa, r.semester)
  | none => (0, "N/A")

/-- Errors of the upload path. -/
inductive LoadError where
  | schemaError : LoadError
  | parseError : LoadError
deriving DecidableEq, Repr

/-- `required_cols` (line 59). -/
def requiredCols : List String := ["Semester", "SGPA", "CGPA"]

/-- The `required_cols.issubset(set(data.columns))` check (lines 59-64);
string comparison is exact and case-sensitive. -/
def validateSchema (cols : List String) : Except LoadError Unit :=
  if requiredCols.all (fun c => cols.contains c) then .ok () else .error .schemaError

/-- An uploaded table: its header row and its data rows (already coerced to
the record shape; the `Semester` column is text). -/
structure Table where
  columns : List String
  rows : List Record

/-- The data-input branch (lines 55-98): an upload is schema-checked before
anything touches its rows, no upload selects the sample dataset, and either
way the result is normalized. -/
def loadData : Option Table → Except LoadError (List Record)
  | some t =>
    match validateSchema t.columns with
    | .error e => .error e
    | .ok _ => .ok (normalize t.rows)
  | none => .ok (normalize sampleRecords)

/-- Rounding to two decimals, as in the `:.2f` display of the metrics. -/
def round2 (q : ℚ) : ℚ :=
  (round (q * 100) : ℤ) / 100

/-- Decimal digit character for `d < 10`. -/
def natDigitChar (d : Nat) : Char := Char.ofNat (48 + d)

/-- Decimal digit characters of `n`, most significant first; the fuel
argument bounds the recursion and `n` itself always suffices. -/
def natCharsAux : Nat → Nat → List Char
  | 0, _ => []
  | fuel + 1, n =>
    if n = 0 then [] else natCharsAux fuel (n / 10) ++ [natDigitChar (n % 10)]

/-- Decimal rendering of `n` (empty for 0; labels use `n ≥ 1`). -/
def natChars (n : Nat) : List Char := natCharsAux n n

/-- The programmatically generated label of semester `n`: `"Sem " + str(n)`,
as the spec describes for the manual-entry variant. -/
def semLabel (n : Nat) : String := "Sem " ++ String.mk (natChars n)

/-! Helper instances and lemmas. -/

instance {ε α : Type} [DecidableEq ε] [DecidableEq α] : DecidableEq (Except ε α) := fun x y =>
  match x, y with
  | .error a, .error b => decidable_of_iff (a = b) (by simp)
  | .ok a, .ok b => decidable_of_iff (a = b) (by simp)
  | .error _, .ok _ => isFalse (fun hc => by cases hc)
  | .ok _, .error _ => isFalse (fun hc => by cases hc)

theorem idxmaxBy_eq_none {f : Record → ℚ} :
    ∀ {rs : List Record}, idxmaxBy f rs = none ↔ rs = []
  | [] => by simp [idxmaxBy]
  | r :: rs => by
    rw [idxmaxBy]
    cases h : idxmaxBy f rs with
    | none => simp
    | some p => cases p with
      | mk i b => simp only []; split <;> simp

theorem idxminBy_eq_none {f : Record → ℚ} :
    ∀ {rs : List Record}, idxminBy f rs = none ↔ rs = []
  | [] => by simp [idxminBy]
  | r :: rs => by
    rw [idxminBy]
    cases h : idxminBy f rs with
    | none => simp
    | some p => cases p with
      | mk i b => simp only []; split <;> simp

theorem idxmaxBy_spec {f : Record → ℚ} :
    ∀ {rs : List Record} {i : Nat} {b : Record}, idxmaxBy f rs = some (i, b) →
      ∃ hi : i < rs.length, rs.get ⟨i, hi⟩ = b ∧ (∀ r ∈ rs, f r ≤ f b) ∧
        ∀ j (hj : j < rs.length), j < i → f (rs.get ⟨j, hj⟩) < f b
  | [], i, b => by simp [idxmaxBy]
  | r :: rs, i, b => by
    intro h
    rw [idxmaxBy] at h
    cases hrec : idxmaxBy f rs with
    | none =>
      rw [hrec] at h
      have hnil : rs = [] := idxmaxBy_eq_none.mp hrec
      subst hnil
      cases h
      refine ⟨by simp, rfl, ?_, ?_⟩
      · intro x hx
        rcases List.mem_singleton.mp hx with rfl
        exact le_refl _
      · intro j hj hj0
        exact absurd hj0 (Nat.not_lt_zero j)
    | some p =>
      rcases p with ⟨i', b'⟩
      rw [hrec] at h
      dsimp only at h
      obtain ⟨hi', hget', hmax', hfirst'⟩ := idxmaxBy_spec hrec
      by_cases hle : f b' ≤ f r
      · rw [if_pos hle] at h
        cases h
        refine ⟨by simp, rfl, ?_, ?_⟩
        · intro x hx
          rcases List.mem_cons.mp hx with rfl | hx
          · exact le_refl _
          · exact le_trans (hmax' x hx) hle
        · intro j hj hj0
          exact absurd hj0 (Nat.not_lt_zero j)
      · rw [if_neg hle] at h
        cases h
        push_neg at hle
        refine ⟨by simpa using Nat.succ_lt_succ hi', by simpa [List.get_cons_succ] using hget', ?_, ?_⟩
        · intro x hx
          rcases List.mem_cons.mp hx with rfl | hx
          · exact le_of_lt (by simpa [hget'] using hle)
          · simpa [hget'] using hmax' x hx
        · intro j hj hj0
          cases j with
          | zero => simpa [hget'] using hle
          | succ k =>
            have hk : k < rs.length := by simpa using Nat.lt_of_succ_lt_succ hj
            have := hfirst' k hk (Nat.lt_of_succ_lt_succ hj0)
            simpa [List.get_cons_succ, hget'] using this

theorem idxminBy_spec {f : Record → ℚ} :
    ∀ {rs : List Record} {i : Nat} {b : Record}, idxminBy f rs = some (i, b) →
      ∃ hi : i < rs.length, rs.get ⟨i, hi⟩ = b ∧ (∀ r ∈ rs, f b ≤ f r) ∧
        ∀ j (hj : j < rs.length), j < i → f b < f (rs.get ⟨j, hj⟩)
  | [], i, b => by simp [idxminBy]
  | r :: rs, i, b => by
    intro h
    rw [idxminBy] at h
    cases hrec : idxminBy f rs with
    | none =>
      rw [hrec] at h
      have hnil : rs = [] := idxminBy_eq_none.mp hrec
      subst hnil
      cases h
      refine ⟨by simp, rfl, ?_, ?_⟩
      · intro x hx
        rcases List.mem_singleton.mp hx with rfl
        exact le_refl _
      · intro j hj hj0
        exact absurd hj0 (Nat.not_lt_zero j)
    | some p =>
      rcases p with ⟨i', b'⟩
      rw [hrec] at h
      dsimp only at h
      obtain ⟨hi', hget', hmin', hfirst'⟩ := idxminBy_spec hrec
      by_cases hle : f r ≤ f b'
      · rw [if_pos hle] at h
        cases h
        refine ⟨by simp, rfl, ?_, ?_⟩
        · intro x hx
          rcases List.mem_cons.mp hx with rfl | hx
          · exact le_refl _
          · exact le_trans hle (hmin' x hx)
        · intro j hj hj0
          exact absurd hj0 (Nat.not_lt_zero j)
      · rw [if_neg hle] at h
        cases h
        push_neg at hle
        refine ⟨by simpa using Nat.succ_lt_succ hi', by simpa [List.get_cons_succ] using hget', ?_, ?_⟩
        · intro x hx
          rcases List.mem_cons.mp hx with rfl | hx
          · exact le_of_lt (by simpa [hget'] using hle)
          · simpa [hget'] using hmin' x hx
        · intro j hj hj0
          cases j with
          | zero => simpa [hget'] using hle
          | succ k =>
            have hk : k < rs.length := by simpa using Nat.lt_of_succ_lt_succ hj
            have := hfirst' k hk (Nat.lt_of_succ_lt_succ hj0)
            simpa [List.get_cons_succ, hget'] using this

theorem natDigitChar_toNat {d : Nat} (h : d < 10) : (natDigitChar d).toNat = 48 + d := by
  interval_cases d <;> rfl

theorem natDigitChar_isDigit {d : Nat} (h : d < 10) : (natDigitChar d).isDigit = true := by
  interval_cases d <;> rfl

theorem digitRunToNat_append (cs : List Char) (c : Char) :
    digitRunToNat (cs ++ [c]) = 10 * digitRunToNat cs + (c.toNat - 48) := by
  simp [digitRunToNat, List.foldl_append]

theorem natCharsAux_spec :
    ∀ (fuel n : Nat), n ≤ fuel →
      digitRunToNat (natCharsAux fuel n) = n ∧ ∀ c ∈ natCharsAux fuel n, c.isDigit = true
  | 0, n => by
    intro hn
    interval_cases n
    simp [natCharsAux, digitRunToNat]
  | fuel + 1, n => by
    intro hn
    rw [natCharsAux]
    by_cases h0 : n = 0
    · simp [h0, digitRunToNat]
    · rw [if_neg h0]
      have hdiv : n / 10 ≤ fuel := by
        have h1 : n / 10 < n := Nat.div_lt_self (Nat.pos_of_ne_zero h0) (by omega)
        omega
      obtain ⟨ih1, ih2⟩ := natCharsAux_spec fuel (n / 10) hdiv
      constructor
      · rw [digitRunToNat_append, ih1, natDigitChar_toNat (Nat.mod_lt n (by omega))]
        omega
      · intro c hc
        rcases List.mem_append.mp hc with hc | hc
        · exact ih2 c hc
        · rcases List.mem_singleton.mp hc with rfl
          exact natDigitChar_isDigit (Nat.mod_lt n (by omega))

theorem digitRunToNat_natChars (n : Nat) : digitRunToNat (natChars n) = n :=
  (natCharsAux_spec n n le_rfl).1

theorem natChars_isDigit {n : Nat} {c : Char} (hc : c ∈ natChars n) : c.isDigit = true :=
  (natCharsAux_spec n n le_rfl).2 c hc

theorem natChars_ne_nil {n : Nat} (h : n ≠ 0) : natChars n ≠ [] := by
  cases n with
  | zero => exact absurd rfl h
  | succ m =>
    rw [natChars, natCharsAux, if_neg (Nat.succ_ne_zero m)]
    simp

theorem takeWhile_of_all {p : Char → Bool} :
    ∀ {cs : List Char}, (∀ c ∈ cs, p c = true) → cs.takeWhile p = cs
  | [], _ => rfl
  | c :: cs, h => by
    have hc := h c (List.mem_cons_self c cs)
    have ht := takeWhile_of_all (fun x hx => h x (List.mem_cons_of_mem c hx))
    simp [List.takeWhile_cons, hc, ht]

theorem firstDigitRun_semLabel {n : Nat} (h : 0 < n) :
    firstDigitRun (semLabel n) = natChars n := by
  obtain ⟨c, cs, hcons⟩ := List.exists_cons_of_ne_nil (natChars_ne_nil (Nat.pos_iff_ne_zero.mp h))
  have hcdig : c.isDigit = true := natChars_isDigit (by rw [hcons]; exact List.mem_cons_self c cs)
  have hdata : (semLabel n).data = 'S' :: 'e' :: 'm' :: ' ' :: (c :: cs) := by
    rw [semLabel, String.data_append, ← hcons]
    rfl
  rw [firstDigitRun, hdata]
  rw [List.dropWhile_cons_of_pos (by rfl), List.dropWhile_cons_of_pos (by rfl),
    List.dropWhile_cons_of_pos (by rfl), List.dropWhile_cons_of_pos (by rfl),
    List.dropWhile_cons_of_neg (by rw [hcdig]; decide)]
  rw [← hcons]
  exact takeWhile_of_all (fun x hx => natChars_isDigit hx)

theorem semIndex_semLabel {n : Nat} (h : 0 < n) : semIndex (semLabel n) = some n := by
  rw [semIndex, firstDigitRun_semLabel h]
  obtain ⟨c, cs, hcons⟩ := List.exists_cons_of_ne_nil (natChars_ne_nil (Nat.pos_iff_ne_zero.mp h))
  rw [hcons]
  simp only []
  rw [← hcons, digitRunToNat_natChars]

/-! Lemmas about the normalization step. -/

theorem semKey_trans (a b c : Record) :
    decide (semKey a ≤ semKey b) → decide (semKey b ≤ semKey c) → decide (semKey a ≤ semKey c) := by
  intro hab hbc
  simp only [decide_eq_true_eq] at *
  exact le_trans hab hbc

theorem semKey_total (a b : Record) :
    decide (semKey a ≤ semKey b) || decide (semKey b ≤ semKey a) := by
  rcases Nat.le_total (semKey a) (semKey b) with h | h <;> simp [h]

theorem normalize_of_all_some {rs : List Record}
    (h : ∀ r ∈ rs, (semIndex r.semester).isSome) :
    normalize rs = rs.mergeSort (fun a b => decide (semKey a ≤ semKey b)) := by
  rw [normalize, if_pos (List.all_eq_true.mpr h)]

theorem normalize_of_fail {rs : List Record} {r : Record}
    (hr : r ∈ rs) (h : semIndex r.semester = none) : normalize rs = rs := by
  rw [normalize, if_neg]
  intro hall
  have := List.all_eq_true.mp hall r hr
  rw [h] at this
  exact Bool.noConfusion this

theorem normalize_perm (rs : List Record) : (normalize rs).Perm rs := by
  rw [normalize]
  split
  · exact List.mergeSort_perm rs _
  · exact List.Perm.refl rs

theorem normalize_sortedKeys {rs : List Record}
    (h : ∀ r ∈ rs, (semIndex r.semester).isSome) :
    (normalize rs).Pairwise (fun a b => semKey a ≤ semKey b) := by
  rw [normalize_of_all_some h]
  have h := @List.sorted_mergeSort Record (fun a b => decide (semKey a ≤ semKey b))
    semKey_trans semKey_total rs
  exact h.imp (fun hab => by simpa using hab)

theorem normalize_of_sortedKeys {rs : List Record}
    (hsome : ∀ r ∈ rs, (semIndex r.semester).isSome)
    (hsorted : rs.Pairwise (fun a b => semKey a ≤ semKey b)) :
    normalize rs = rs := by
  rw [normalize_of_all_some hsome]
  exact List.mergeSort_of_sorted (hsorted.imp (fun hab => by simpa using hab))

theorem normalize_idem (rs : List Record) : normalize (normalize rs) = normalize rs := by
  by_cases h : ∀ r ∈ rs, (semIndex r.semester).isSome
  · have hsome : ∀ r ∈ normalize rs, (semIndex r.semester).isSome := by
      intro r hr
      exact h r ((normalize_perm rs).mem_iff.mp hr)
    exact normalize_of_sortedKeys hsome (normalize_sortedKeys h)
  · push_neg at h
    obtain ⟨r, hr, hnone⟩ := h
    have hnone' : semIndex r.semester = none := by
      cases hidx : semIndex r.semester with
      | none => rfl
      | some v => rw [hidx] at hnone; exact absurd rfl hnone
    rw [normalize_of_fail hr hnone', normalize_of_fail hr hnone']

theorem normalize_sample : normalize sampleRecords = sampleRecords := by
  rw [normalize, if_pos (by decide)]
  exact List.mergeSort_of_sorted (by decide)

theorem computeMetrics_isOk {rs : List Record} (h : rs ≠ []) :
    ∃ hi lo fin, highest_sgpa rs = some hi ∧ lowest_sgpa rs = some lo ∧
      final_cgpa_strict rs = some fin ∧
      computeMetrics rs = .ok ⟨hi, lo, average_sgpa rs, fin⟩ := by
  have hmax : ∃ p, idxmaxBy Record.sgpa rs = some p := by
    cases hm : idxmaxBy Record.sgpa rs with
    | none => exact absurd (idxmaxBy_eq_none.mp hm) h
    | some p => exact ⟨p, rfl⟩
  have hmin : ∃ p, idxminBy Record.sgpa rs = some p := by
    cases hm : idxminBy Record.sgpa rs with
    | none => exact absurd (idxminBy_eq_none.mp hm) h
    | some p => exact ⟨p, rfl⟩
  obtain ⟨pmax, hpmax⟩ := hmax
  obtain ⟨pmin, hpmin⟩ := hmin
  refine ⟨(pmax.2.sgpa, pmax.2.semester), (pmin.2.sgpa, pmin.2.semester),
    ((rs.getLast h).cgpa, (rs.getLast h).semester), ?_, ?_, ?_, ?_⟩
  · rw [highest_sgpa, hpmax]; rfl
  · rw [lowest_sgpa, hpmin]; rfl
  · rw [final_cgpa_strict, List.getLast?_eq_getLast rs h]; rfl
  · rw [computeMetrics, highest_sgpa, hpmax, lowest_sgpa, hpmin,
      final_cgpa_strict, List.getLast?_eq_getLast rs h]
    rfl

theorem filter_getLast_spec {p : Record → Bool} :
    ∀ {rs : List Record} {i : Nat} (hi : i < rs.length),
      p (rs.get ⟨i, hi⟩) = true →
      (∀ j (hj : j < rs.length), i < j → p (rs.get ⟨j, hj⟩) = false) →
      (rs.filter p).getLast? = some (rs.get ⟨i, hi⟩)
  | [], i => by
    intro hi
    exact absurd hi (Nat.not_lt_zero i)
  | r :: rs, 0 => by
    intro hi hp hafter
    have hnil : rs.filter p = [] := by
      rw [List.filter_eq_nil_iff]
      intro x hx
      obtain ⟨⟨k, hk⟩, hkx⟩ := List.mem_iff_get.mp hx
      have := hafter (k + 1) (by simpa using Nat.succ_lt_succ hk) (Nat.succ_pos k)
      rw [List.get_cons_succ, hkx] at this
      simp [this]
    have hpr : p r = true := hp
    rw [List.filter_cons_of_pos hpr, hnil]
    rfl
  | r :: rs, i + 1 => by
    intro hi hp hafter
    have hi' : i < rs.length := Nat.lt_of_succ_lt_succ hi
    have hp' : p (rs.get ⟨i, hi'⟩) = true := by
      have hgc : (r :: rs).get ⟨i + 1, hi⟩ = rs.get ⟨i, hi'⟩ := List.get_cons_succ
      rw [← hgc]
      exact hp
    have hafter' : ∀ j (hj : j < rs.length), i < j → p (rs.get ⟨j, hj⟩) = false := by
      intro j hj hij
      have := hafter (j + 1) (by simpa using Nat.succ_lt_succ hj) (Nat.succ_lt_succ hij)
      rw [List.get_cons_succ] at this
      exact this
    have ih := filter_getLast_spec hi' hp' hafter'
    have hne : rs.filter p ≠ [] := by
      intro hnil
      rw [hnil] at ih
      cases ih
    rw [List.get_cons_succ]
    rw [List.filter_cons]
    split
    · obtain ⟨x, xs, hx⟩ := List.exists_cons_of_ne_nil hne
      rw [hx, List.getLast?_cons_cons, ← hx, ih]
    · rw [ih]

/-! The claims. -/

/-- C1: normalization extracts the first digit run from every semester label;
if every label yields an integer the store is re-ordered into a permutation
of itself that is ascending in the extracted key, and if any single label
fails extraction the entire original order is preserved (all-or-nothing);
in particular the labels "Sem 1", "X", "Sem 3" keep their input order. -/
theorem claim_C1_sort_all_or_nothing :
    (∀ rs : List Record, (∀ r ∈ rs, (semIndex r.semester).isSome) →
      (normalize rs).Perm rs ∧ (normalize rs).Pairwise (fun a b => semKey a ≤ semKey b))
    ∧ (∀ (rs : List Record) (r : Record), r ∈ rs → semIndex r.semester = none →
      normalize rs = rs)
    ∧ normalize [⟨"Sem 1", 8, 8⟩, ⟨"X", 9, 9⟩, ⟨"Sem 3", 7, 7⟩]
      = [⟨"Sem 1", 8, 8⟩, ⟨"X", 9, 9⟩, ⟨"Sem 3", 7, 7⟩] := by
  refine ⟨?_, ?_, by decide⟩
  · intro rs h
    exact ⟨normalize_perm rs, normalize_sortedKeys h⟩
  · intro rs r hr hnone
    exact normalize_of_fail hr hnone

/-- Witness for C1 at a concrete out-of-order store and a concrete
digit-free label. -/
theorem claim_C1_witness :
    ((normalize [⟨"Sem 2", 1, 1⟩, ⟨"Sem 1", 2, 2⟩]).Perm [⟨"Sem 2", 1, 1⟩, ⟨"Sem 1", 2, 2⟩]
      ∧ (normalize [⟨"Sem 2", 1, 1⟩, ⟨"Sem 1", 2, 2⟩]).Pairwise (fun a b => semKey a ≤ semKey b))
    ∧ normalize [⟨"Sem 1", 1, 1⟩, ⟨"X", 2, 2⟩] = [⟨"Sem 1", 1, 1⟩, ⟨"X", 2, 2⟩] :=
  ⟨claim_C1_sort_all_or_nothing.1 [⟨"Sem 2", 1, 1⟩, ⟨"Sem 1", 2, 2⟩] (by decide),
    claim_C1_sort_all_or_nothing.2.1 [⟨"Sem 1", 1, 1⟩, ⟨"X", 2, 2⟩] ⟨"X", 2, 2⟩
      (by decide) (by decide)⟩

/-- C2: on every non-empty store `highest_sgpa` returns the value and label
of a record holding the maximal SGPA and every earlier record is strictly
smaller (first occurrence wins ties); dually for `lowest_sgpa`; on SGPA
values 8, 9, 9 the highest resolves to "Sem 2", not "Sem 3". -/
theorem claim_C2_extrema_first_occurrence :
    (∀ rs : List Record, rs ≠ [] →
      ∃ (i : Nat) (hi : i < rs.length),
        highest_sgpa rs = some ((rs.get ⟨i, hi⟩).sgpa, (rs.get ⟨i, hi⟩).semester)
        ∧ (∀ r ∈ rs, r.sgpa ≤ (rs.get ⟨i, hi⟩).sgpa)
        ∧ (∀ j (hj : j < rs.length), j < i → (rs.get ⟨j, hj⟩).sgpa < (rs.get ⟨i, hi⟩).sgpa))
    ∧ (∀ rs : List Record, rs ≠ [] →
      ∃ (i : Nat) (hi : i < rs.length),
        lowest_sgpa rs = some ((rs.get ⟨i, hi⟩).sgpa, (rs.get ⟨i, hi⟩).semester)
        ∧ (∀ r ∈ rs, (rs.get ⟨i, hi⟩).sgpa ≤ r.sgpa)
        ∧ (∀ j (hj : j < rs.length), j < i → (rs.get ⟨i, hi⟩).sgpa < (rs.get ⟨j, hj⟩).sgpa))
    ∧ highest_sgpa [⟨"Sem 1", 8, 8⟩, ⟨"Sem 2", 9, 9⟩, ⟨"Sem 3", 9, 9⟩] = some (9, "Sem 2") := by
  refine ⟨?_, ?_, by decide⟩
  · intro rs h
    cases hm : idxmaxBy Record.sgpa rs with
    | none => exact absurd (idxmaxBy_eq_none.mp hm) h
    | some p =>
      obtain ⟨i, b⟩ := p
      obtain ⟨hi, hget, hmax, hfirst⟩ := idxmaxBy_spec hm
      refine ⟨i, hi, ?_, ?_, ?_⟩
      · rw [highest_sgpa, hm, hget]; rfl
      · rw [hget]; exact hmax
      · rw [hget]; exact hfirst
  · intro rs h
    cases hm : idxminBy Record.sgpa rs with
    | none => exact absurd (idxminBy_eq_none.mp hm) h
    | some p =>
      obtain ⟨i, b⟩ := p
      obtain ⟨hi, hget, hmin, hfirst⟩ := idxminBy_spec hm
      refine ⟨i, hi, ?_, ?_, ?_⟩
      · rw [lowest_sgpa, hm, hget]; rfl
      · rw [hget]; exact hmin
      · rw [hget]; exact hfirst

/-- Witness for C2 on a concrete two-record store. -/
theorem claim_C2_witness :
    (∃ (i : Nat) (hi : i < ([⟨"Sem 1", 8, 8⟩, ⟨"Sem 2", 9, 9⟩] : List Record).length),
      highest_sgpa [⟨"Sem 1", 8, 8⟩, ⟨"Sem 2", 9, 9⟩]
        = some ((([⟨"Sem 1", 8, 8⟩, ⟨"Sem 2", 9, 9⟩] : List Record).get ⟨i, hi⟩).sgpa,
            (([⟨"Sem 1", 8, 8⟩, ⟨"Sem 2", 9, 9⟩] : List Record).get ⟨i, hi⟩).semester)
      ∧ (∀ r ∈ ([⟨"Sem 1", 8, 8⟩, ⟨"Sem 2", 9, 9⟩] : List Record),
          r.sgpa ≤ (([⟨"Sem 1", 8, 8⟩, ⟨"Sem 2", 9, 9⟩] : List Record).get ⟨i, hi⟩).sgpa)
      ∧ (∀ j (hj : j < ([⟨"Sem 1", 8, 8⟩, ⟨"Sem 2", 9, 9⟩] : List Record).length), j < i →
          (([⟨"Sem 1", 8, 8⟩, ⟨"Sem 2", 9, 9⟩] : List Record).get ⟨j, hj⟩).sgpa
            < (([⟨"Sem 1", 8, 8⟩, ⟨"Sem 2", 9, 9⟩] : List Record).get ⟨i, hi⟩).sgpa)) :=
  claim_C2_extrema_first_occurrence.1 [⟨"Sem 1", 8, 8⟩, ⟨"Sem 2", 9, 9⟩] (by decide)

/-- C3: under the strict-last policy the final CGPA of every non-empty store
is the value and label of the chronologically last record, unconditionally —
also inside the metrics block — and in particular even when that value is
zero. -/
theorem claim_C3_strict_last :
    (∀ (rs : List Record) (h : rs ≠ []),
      final_cgpa_strict rs = some ((rs.getLast h).cgpa, (rs.getLast h).semester)
      ∧ ∀ m, computeMetrics rs = .ok m →
          m.finalCgpa = ((rs.getLast h).cgpa, (rs.getLast h).semester))
    ∧ final_cgpa_strict [⟨"Sem 1", 8, 8⟩, ⟨"Sem 2", 7, 0⟩] = some (0, "Sem 2") := by
  refine ⟨?_, by decide⟩
  intro rs h
  constructor
  · rw [final_cgpa_strict, List.getLast?_eq_getLast rs h]
    rfl
  · intro m hm
    obtain ⟨hi, lo, fin, hhi, hlo, hfin, hok⟩ := computeMetrics_isOk h
    rw [hok] at hm
    cases hm
    have : some fin = some ((rs.getLast h).cgpa, (rs.getLast h).semester) := by
      rw [← hfin, final_cgpa_strict, List.getLast?_eq_getLast rs h]
      rfl
    exact Option.some_injective _ this

/-- Witness for C3 on a concrete store whose last CGPA is zero. -/
theorem claim_C3_witness :
    final_cgpa_strict [⟨"Sem 1", 8, 8⟩, ⟨"Sem 2", 7, 0⟩]
      = some ((([⟨"Sem 1", 8, 8⟩, ⟨"Sem 2", 7, 0⟩] : List Record).getLast (by decide)).cgpa,
          (([⟨"Sem 1", 8, 8⟩, ⟨"Sem 2", 7, 0⟩] : List Record).getLast (by decide)).semester) :=
  ((claim_C3_strict_last.1 [⟨"Sem 1", 8, 8⟩, ⟨"Sem 2", 7, 0⟩] (by decide)).1)

/-- C4: under the last-nonzero policy the final CGPA of a store is the value
and label of the last record whose CGPA is positive, and the sentinel
(0, "N/A") when no record has a positive CGPA; on CGPA values 8.35, 0, 0
over semesters 1-3 it is (8.35, "Sem 1"). -/
theorem claim_C4_last_nonzero :
    (∀ rs : List Record, (∀ r ∈ rs, ¬ 0 < r.cgpa) →
      final_cgpa_lastNonzero rs = (0, "N/A"))
    ∧ (∀ (rs : List Record) (i : Nat) (hi : i < rs.length),
        0 < (rs.get ⟨i, hi⟩).cgpa →
        (∀ j (hj : j < rs.length), i < j → ¬ 0 < (rs.get ⟨j, hj⟩).cgpa) →
        final_cgpa_lastNonzero rs
          = ((rs.get ⟨i, hi⟩).cgpa, (rs.get ⟨i, hi⟩).semester))
    ∧ final_cgpa_lastNonzero [⟨"Sem 1", 8.35, 8.35⟩, ⟨"Sem 2", 0, 0⟩, ⟨"Sem 3", 0, 0⟩]
      = (8.35, "Sem 1")
    ∧ final_cgpa_lastNonzero [⟨"Sem 1", 1, 0⟩, ⟨"Sem 2", 2, 0⟩, ⟨"Sem 3", 3, 0⟩]
      = (0, "N/A") := by
  refine ⟨?_, ?_, by norm_num [final_cgpa_lastNonzero, List.filter],
    by norm_num [final_cgpa_lastNonzero, List.filter]⟩
  · intro rs h
    have hnil : rs.filter (fun r => decide (0 < r.cgpa)) = [] := by
      rw [List.filter_eq_nil_iff]
      intro r hr
      simpa using h r hr
    rw [final_cgpa_lastNonzero, hnil]
    rfl
  · intro rs i hi hp hafter
    have hp' : (fun r => decide (0 < r.cgpa)) (rs.get ⟨i, hi⟩) = true := by
      simpa using hp
    have hafter' : ∀ j (hj : j < rs.length), i < j →
        (fun r => decide (0 < r.cgpa)) (rs.get ⟨j, hj⟩) = false := by
      intro j hj hij
      simpa using hafter j hj hij
    rw [final_cgpa_lastNonzero, filter_getLast_spec hi hp' hafter']

/-- Witness for C4 on a concrete store whose last positive CGPA sits in the
middle. -/
theorem claim_C4_witness :
    final_cgpa_lastNonzero [⟨"Sem 1", 1, 3⟩, ⟨"Sem 2", 2, 5⟩, ⟨"Sem 3", 3, 0⟩]
      = ((([⟨"Sem 1", 1, 3⟩, ⟨"Sem 2", 2, 5⟩, ⟨"Sem 3", 3, 0⟩] : List Record).get
            ⟨1, by decide⟩).cgpa,
         (([⟨"Sem 1", 1, 3⟩, ⟨"Sem 2", 2, 5⟩, ⟨"Sem 3", 3, 0⟩] : List Record).get
            ⟨1, by decide⟩).semester) :=
  claim_C4_last_nonzero.2.1 [⟨"Sem 1", 1, 3⟩, ⟨"Sem 2", 2, 5⟩, ⟨"Sem 3", 3, 0⟩] 1
    (by decide) (by decide) (by decide)

/-- C5 counterexample: on a store with zero records the metrics block does
not fail with `EmptyDataError`; it stops with the ValueError that `idxmax`
raises on an empty series. -/
theorem claim_C5_counterexample :
    computeMetrics ([] : List Record) ≠ .error .emptyDataError
    ∧ computeMetrics ([] : List Record) = .error .valueError := by
  exact ⟨by decide, by decide⟩

/-- C5 (amended): computing metrics on a store with zero records fails and
produces no metrics, but with the argmax-of-an-empty-sequence ValueError
from lower in the stack, not with `EmptyDataError` — no such guard exists in
the metrics block. -/
theorem claim_C5_empty_metrics_fail :
    computeMetrics ([] : List Record) = .error .valueError := by
  decide

/-- C6: loading an uploaded table fails with `SchemaError` exactly when one
of the exact, case-sensitive columns `Semester`, `SGPA`, `CGPA` is missing,
and it does so for every possible row content (the check runs before any row
is processed); a header without `CGPA` fails for all rows. -/
theorem claim_C6_schema_error :
    (∀ (cols : List String) (rows : List Record),
      (¬ ∀ c ∈ requiredCols, c ∈ cols) →
      loadData (some ⟨cols, rows⟩) = .error .schemaError)
    ∧ (∀ (cols : List String) (rows : List Record),
      (∀ c ∈ requiredCols, c ∈ cols) →
      loadData (some ⟨cols, rows⟩) = .ok (normalize rows))
    ∧ (∀ rows : List Record,
      loadData (some ⟨["Semester", "SGPA"], rows⟩) = .error .schemaError) := by
  have hcond : ∀ cols : List String,
      requiredCols.all (fun c => cols.contains c) = true ↔ ∀ c ∈ requiredCols, c ∈ cols := by
    intro cols
    rw [List.all_eq_true]
    constructor
    · intro h c hc
      simpa [List.contains] using h c hc
    · intro h c hc
      simpa [List.contains] using h c hc
  have h1 : ∀ (cols : List String) (rows : List Record),
      (¬ ∀ c ∈ requiredCols, c ∈ cols) →
      loadData (some ⟨cols, rows⟩) = .error .schemaError := by
    intro cols rows h
    have hc : ¬ requiredCols.all (fun c => cols.contains c) = true :=
      fun hb => h ((hcond cols).mp hb)
    simp only [loadData, validateSchema, if_neg hc]
  refine ⟨h1, ?_, fun rows => h1 _ rows (by decide)⟩
  intro cols rows h
  have hc : requiredCols.all (fun c => cols.contains c) = true := (hcond cols).mpr h
  simp only [loadData, validateSchema, if_pos hc]

/-- Witness for C6 at a concrete header missing the CGPA column and a
concrete complete header. -/
theorem claim_C6_witness :
    loadData (some ⟨["Semester", "SGPA", "cgpa"], [⟨"Sem 1", 8, 8⟩]⟩) = .error .schemaError
    ∧ loadData (some ⟨["Semester", "SGPA", "CGPA", "Extra"], [⟨"Sem 1", 8, 8⟩]⟩)
      = .ok (normalize [⟨"Sem 1", 8, 8⟩]) :=
  ⟨claim_C6_schema_error.1 ["Semester", "SGPA", "cgpa"] [⟨"Sem 1", 8, 8⟩] (by decide),
    claim_C6_schema_error.2.1 ["Semester", "SGPA", "CGPA", "Extra"] [⟨"Sem 1", 8, 8⟩]
      (by decide)⟩

/-- C7: on the built-in sample data the metrics are exactly
highest = (8.70, "Sem 7"), lowest = (7.34, "Sem 3"), average = 8.11 after
rounding to two decimals, and strict-last final CGPA = (8.13, "Sem 8"). -/
theorem claim_C7_sample_metrics :
    loadData none = .ok sampleRecords
    ∧ (computeMetrics sampleRecords).map
        (fun m => (m.highestSgpa, m.lowestSgpa, round2 m.averageSgpa, m.finalCgpa))
      = .ok ((8.70, "Sem 7"), (7.34, "Sem 3"), 8.11, (8.13, "Sem 8")) := by
  constructor
  · simp [loadData, normalize_sample]
  · norm_num [computeMetrics, highest_sgpa, lowest_sgpa, final_cgpa_strict, average_sgpa,
      idxmaxBy, idxminBy, sampleRecords, round2, round_eq, Except.map, Int.floor_eq_iff]

/-- C8: on every non-empty store the average SGPA is the arithmetic mean of
all SGPA values — zero entries included in both sum and count — and
appending a zero-SGPA record to a store with positive SGPA total strictly
lowers the average. -/
theorem claim_C8_average :
    (∀ rs : List Record, rs ≠ [] →
      ∃ m, computeMetrics rs = .ok m
        ∧ m.averageSgpa = (rs.map Record.sgpa).sum / rs.length
        ∧ m.averageSgpa * rs.length = (rs.map Record.sgpa).sum)
    ∧ (∀ (rs : List Record) (r : Record), rs ≠ [] →
        0 < (rs.map Record.sgpa).sum → r.sgpa = 0 →
        average_sgpa (rs ++ [r]) < average_sgpa rs) := by
  constructor
  · intro rs h
    obtain ⟨hi, lo, fin, _, _, _, hok⟩ := computeMetrics_isOk h
    have hlen : ((rs.length : ℚ)) ≠ 0 := by
      have hpos : 0 < rs.length := List.length_pos.mpr h
      exact_mod_cast Nat.pos_iff_ne_zero.mp hpos
    refine ⟨_, hok, rfl, ?_⟩
    show average_sgpa rs * rs.length = (rs.map Record.sgpa).sum
    rw [average_sgpa, div_mul_cancel₀ _ hlen]
  · intro rs r h hsum hzero
    have hlen0 : 0 < ((rs.length : ℕ) : ℚ) := by
      exact_mod_cast List.length_pos.mpr h
    have hmap : ((rs ++ [r]).map Record.sgpa).sum = (rs.map Record.sgpa).sum := by
      simp [hzero]
    have hlen1 : (((rs ++ [r]).length : ℕ) : ℚ) = ((rs.length : ℕ) : ℚ) + 1 := by
      rw [List.length_append, List.length_singleton]
      push_cast
      ring
    rw [average_sgpa, average_sgpa, hmap, hlen1]
    exact div_lt_div_of_pos_left hsum hlen0 (lt_add_one _)

/-- Witness for C8 on a concrete one-record store and a concrete appended
zero record. -/
theorem claim_C8_witness :
    (∃ m, computeMetrics [⟨"Sem 1", 8, 8⟩] = .ok m
      ∧ m.averageSgpa = (([⟨"Sem 1", 8, 8⟩] : List Record).map Record.sgpa).sum
          / ([⟨"Sem 1", 8, 8⟩] : List Record).length
      ∧ m.averageSgpa * ([⟨"Sem 1", 8, 8⟩] : List Record).length
          = (([⟨"Sem 1", 8, 8⟩] : List Record).map Record.sgpa).sum)
    ∧ average_sgpa ([⟨"Sem 1", 8, 8⟩] ++ [⟨"Sem 2", 0, 0⟩]) < average_sgpa [⟨"Sem 1", 8, 8⟩] :=
  ⟨claim_C8_average.1 [⟨"Sem 1", 8, 8⟩] (by decide),
    claim_C8_average.2 [⟨"Sem 1", 8, 8⟩] ⟨"Sem 2", 0, 0⟩ (by decide) (by simp) rfl⟩

/-- C9: normalization is the identity on a store whose labels are already
"Sem 1" to "Sem N" in ascending order, and normalizing twice always equals
normalizing once. -/
theorem claim_C9_idempotent :
    (∀ rs : List Record,
      (∀ i (hi : i < rs.length), (rs.get ⟨i, hi⟩).semester = semLabel (i + 1)) →
      normalize rs = rs)
    ∧ ∀ rs : List Record, normalize (normalize rs) = normalize rs := by
  refine ⟨?_, normalize_idem⟩
  intro rs hlab
  have hsome : ∀ r ∈ rs, (semIndex r.semester).isSome := by
    intro r hr
    obtain ⟨⟨i, hi⟩, hget⟩ := List.mem_iff_get.mp hr
    rw [← hget, hlab i hi, semIndex_semLabel (Nat.succ_pos i)]
    rfl
  have hkey : ∀ i (hi : i < rs.length), semKey (rs.get ⟨i, hi⟩) = i + 1 := by
    intro i hi
    rw [semKey, hlab i hi, semIndex_semLabel (Nat.succ_pos i)]
    rfl
  refine normalize_of_sortedKeys hsome ?_
  rw [List.pairwise_iff_get]
  intro i j hij
  have hij' : i.1 < j.1 := hij
  have h1 : semKey (rs.get i) = i.1 + 1 := hkey i.1 i.2
  have h2 : semKey (rs.get j) = j.1 + 1 := hkey j.1 j.2
  rw [h1, h2]
  omega

/-- Witness for C9 at a concrete already-ordered two-semester store. -/
theorem claim_C9_witness :
    normalize [⟨"Sem 1", 1, 1⟩, ⟨"Sem 2", 2, 2⟩] = [⟨"Sem 1", 1, 1⟩, ⟨"Sem 2", 2, 2⟩] :=
  claim_C9_idempotent.1 [⟨"Sem 1", 1, 1⟩, ⟨"Sem 2", 2, 2⟩] (by decide)

/-- C10: with no upload the record store is exactly the 8-record sample
dataset, in its given order (normalization leaves it unchanged), so the
no-upload path never yields an empty store. -/
theorem claim_C10_default_sample :
    loadData none = .ok sampleRecords
    ∧ sampleRecords =
      [ ⟨"Sem 1", 8.35, 8.35⟩, ⟨"Sem 2", 8.03, 8.19⟩, ⟨"Sem 3", 7.34, 7.91⟩,
        ⟨"Sem 4", 8.29, 8.01⟩, ⟨"Sem 5", 7.90, 7.99⟩, ⟨"Sem 6", 7.95, 7.98⟩,
        ⟨"Sem 7", 8.70, 8.10⟩, ⟨"Sem 8", 8.33, 8.13⟩ ]
    ∧ sampleRecords.length = 8
    ∧ sampleRecords ≠ [] := by
  refine ⟨by simp [loadData, normalize_sample], rfl, rfl, by simp [sampleRecords]⟩

end Graphs
